import Mathlib

/-!
Verification development for the `music-tag-native` Rust library.

The library exposes a `MusicTagger` session object over audio-file metadata
(`src/tagger.rs`), a replay-gain text codec (`src/utils.rs`) and an artwork
model (`src/meta_picture.rs`).  This file gives a shallow embedding of those
functions and proves properties about them.

Modelling conventions:
* Rust `f64` values are embedded as exact rationals (`ℚ`); the embedded
  arithmetic is the exact arithmetic of the formulas appearing in the source.
  `f64::round` (round half away from zero) is embedded as `roundAway`.
* Byte buffers are `List ℕ`.
* `&mut self` methods returning `Result<()>` are embedded as functions
  returning a pair of an `Except String Unit` result and the post-state.
* The container/tag engine (the `lofty` crate) is an external collaborator;
  its interface surface (probing, tag collections, keyed text items,
  popularimeter serialization) is modelled explicitly where a claim needs it.
-/

namespace MusicTag

/-! ### Replay-gain codec: character-level utilities (embedding `src/utils.rs`) -/

/-- ASCII whitespace recognizer used by the embedded `str::trim`.
(Rust trims Unicode whitespace; the strings produced and consumed by the
codec are ASCII, for which this agrees.) -/
def isWsChar (c : Char) : Bool :=
  c = ' ' || c = '\t' || c = '\n' || c = '\r'

/-- Embedding of `str::trim`: drop whitespace from both ends. -/
def trimChars (cs : List Char) : List Char :=
  ((cs.dropWhile isWsChar).reverse.dropWhile isWsChar).reverse

/-- `startsWith pat s` holds when `pat` is an initial segment of `s`. -/
def startsWith : List Char → List Char → Bool
  | [], _ => true
  | _ :: _, [] => false
  | p :: ps, c :: cs => p == c && startsWith ps cs

/-- Fuel-driven repeated removal of a leading pattern; with fuel at least the
length of the string this is exact repeated removal. -/
def dropLeadingRepAux : ℕ → List Char → List Char → List Char
  | 0, _, s => s
  | fuel + 1, pat, s =>
    if pat ≠ [] ∧ startsWith pat s = true then
      dropLeadingRepAux fuel pat (s.drop pat.length)
    else s

/-- Remove every leading occurrence of `pat` from `s`. -/
def dropLeadingRep (pat s : List Char) : List Char :=
  dropLeadingRepAux s.length pat s

/-- Embedding of Rust `str::trim_end_matches`: repeatedly remove a trailing
occurrence of `pat`. -/
def trimEndMatchesChars (s pat : List Char) : List Char :=
  (dropLeadingRep pat.reverse s.reverse).reverse

/-- Numeric value of a decimal digit character, `none` on a non-digit. -/
def digitVal? (c : Char) : Option ℕ :=
  if '0' ≤ c ∧ c ≤ '9' then some (c.toNat - '0'.toNat) else none

/-- Split a character list into its longest prefix of decimal digits
(as numeric values) and the remainder. -/
def takeDigits : List Char → List ℕ × List Char
  | [] => ([], [])
  | c :: cs =>
    match digitVal? c with
    | some d => let r := takeDigits cs; (d :: r.1, r.2)
    | none => ([], c :: cs)

/-- The natural number denoted by a most-significant-first digit list. -/
def valOfDigits (ds : List ℕ) : ℕ :=
  ds.foldl (fun a d => a * 10 + d) 0

/-- Leading sign of a numeric literal (`+`, `-`, or absent). -/
def parseSign (cs : List Char) : ℚ × List Char :=
  match cs with
  | c :: r => if c = '+' then (1, r) else if c = '-' then (-1, r) else (1, cs)
  | [] => (1, cs)

/-- Leading sign of an exponent (`+`, `-`, or absent), as an integer. -/
def parseExpSign (cs : List Char) : ℤ × List Char :=
  match cs with
  | c :: r => if c = '+' then (1, r) else if c = '-' then (-1, r) else (1, cs)
  | [] => (1, cs)

/-- Embedding of `str::parse::<f64>()` over exact rationals: an optional
sign, digits with an optional fractional part (at least one digit on one
side of the dot), and an optional integer exponent.  The non-finite
literals (`inf`, `NaN`, …) that cannot be represented in `ℚ` are outside
the fragment exercised by the codec and are not modelled. -/
def parseF64Chars (cs : List Char) : Option ℚ :=
  let sres := parseSign cs
  let ip := takeDigits sres.2
  let fres : List ℕ × List Char :=
    match ip.2 with
    | c :: r => if c = '.' then takeDigits r else ([], ip.2)
    | [] => ([], ip.2)
  if ip.1 = [] ∧ fres.1 = [] then none
  else
    let mant : ℚ := (valOfDigits ip.1 : ℚ) + (valOfDigits fres.1 : ℚ) / 10 ^ fres.1.length
    match fres.2 with
    | [] => some (sres.1 * mant)
    | c :: r =>
      if c = 'e' ∨ c = 'E' then
        let eres := parseExpSign r
        let ed := takeDigits eres.2
        if ed.1 = [] ∨ ed.2 ≠ [] then none
        else some (sres.1 * mant * (10 : ℚ) ^ (eres.1 * (valOfDigits ed.1 : ℤ)))
      else none

/-- Embedding of `parse_replaygain_value` (`src/utils.rs`): trim whitespace,
strip trailing `dB` occurrences, then trailing `db` occurrences, trim again,
and parse the remainder as a decimal number; `none` when parsing fails. -/
def parse_replaygain_value (value : String) : Option ℚ :=
  parseF64Chars (trimChars
    (trimEndMatchesChars (trimEndMatchesChars (trimChars value.data) ['d', 'B']) ['d', 'b']))

/-- Rust `f64::round`: round half away from zero, embedded on `ℚ`. -/
def roundAway (x : ℚ) : ℤ :=
  if 0 ≤ x then ⌊x + 1 / 2⌋ else -⌊-x + 1 / 2⌋

/-- The character of a decimal digit. -/
def digitChar : ℕ → Char
  | 0 => '0' | 1 => '1' | 2 => '2' | 3 => '3' | 4 => '4'
  | 5 => '5' | 6 => '6' | 7 => '7' | 8 => '8' | _ => '9'

/-- Fuel-driven most-significant-first decimal rendering of a natural. -/
def natDigitsAux : ℕ → ℕ → List Char
  | 0, _ => []
  | fuel + 1, n =>
    if n < 10 then [digitChar n]
    else natDigitsAux fuel (n / 10) ++ [digitChar (n % 10)]

/-- Decimal rendering of a natural number, no leading zeros (except `0`). -/
def natDigits (n : ℕ) : List Char :=
  natDigitsAux (n + 1) n

/-- Exactly `k` decimal digits of `n % 10^k`, with leading zeros. -/
def natDigitsPad : ℕ → ℕ → List Char
  | 0, _ => []
  | k + 1, n => natDigitsPad k (n / 10) ++ [digitChar (n % 10)]

/-- Embedding of `format_replaygain_gain` (`src/utils.rs`):
Rust `format!("{:+.2} dB", value)` — always-signed fixed two-decimal
rendering followed by the unit. -/
def format_replaygain_gain (value : ℚ) : String :=
  let m := (roundAway (value * 100)).natAbs
  String.mk ((if value < 0 then '-' else '+') ::
    (natDigits (m / 100) ++ '.' :: natDigitsPad 2 (m % 100) ++ [' ', 'd', 'B']))

/-- Embedding of `format_replaygain_peak` (`src/utils.rs`):
Rust `format!("{:.6}", value)` — fixed six-decimal rendering, sign only
when negative, no unit. -/
def format_replaygain_peak (value : ℚ) : String :=
  let m := (roundAway (value * 1000000)).natAbs
  String.mk ((if value < 0 then ['-'] else []) ++
    (natDigits (m / 1000000) ++ '.' :: natDigitsPad 6 (m % 1000000)))

/-! ### Codec lemmas: digit rendering and parsing invert each other -/

/-- Default-valued digit reading, used to state parser/renderer inversion. -/
def digitValD (c : Char) : ℕ := (digitVal? c).getD 0

/-- Spec-side decoder for replay-gain text, written from the spec's words
(§4.6): trim surrounding whitespace, trim a trailing unit suffix matching
`dB` or `db` case-sensitively on each variant (if present), trim whitespace
again, then parse as a decimal number; absent on parse failure. -/
def replaygainDecodeSpec (value : String) : Option ℚ :=
  parseF64Chars (trimChars
    (trimEndMatchesChars (trimEndMatchesChars (trimChars value.data) ['d', 'B']) ['d', 'b']))

/-! ### Data model for the tagger session (embedding `src/tagger.rs` and the
collaborator surface of §6: tag collections, keyed text items, probing). -/

/-- Error message constants of `src/tagger.rs`. -/
def ERR_NO_TAG : String := "File must contain at least one tag"

def ERR_DISPOSED : String := "File has been disposed"

def ERR_INVALID_IN_WASM : String := "This method is invalid in wasm build"

def ERR_INVALID_RATING : String := "Rating should be integer in [1, 5]"

/-- The generic keyed-text item keys used by the facade (lofty `ItemKey`). -/
inductive ItemKey where
  | AlbumArtist | Composer | Conductor | Lyricist | Publisher | Lyrics | CopyrightMessage
  | Popularimeter | ReplayGainTrackGain | ReplayGainTrackPeak
  | ReplayGainAlbumGain | ReplayGainAlbumPeak
  deriving DecidableEq

/-- The 5-level star-rating enumeration of the collaborator
(lofty `StarRating`), with a zero level outside the 1–5 range. -/
inductive StarRating where
  | zero | one | two | three | four | five
  deriving DecidableEq

/-- POPM-convention byte for each star level (collaborator convention). -/
def starByte : StarRating → ℕ
  | .zero => 0
  | .one => 1
  | .two => 64
  | .three => 128
  | .four => 196
  | .five => 255

def starOfByte : ℕ → Option StarRating
  | 0 => some .zero
  | 1 => some .one
  | 64 => some .two
  | 128 => some .three
  | 196 => some .four
  | 255 => some .five
  | _ => none

/-- A popularity record (collaborator `Popularimeter`): an email tag, a star
rating and a play counter. -/
structure Popularimeter where
  email : List Char
  rating : StarRating
  counter : ℕ
  deriving DecidableEq

/-- Split a character list at commas (collaborator-side text format help). -/
def splitOnComma : List Char → List (List Char)
  | [] => [[]]
  | c :: rest =>
    let r := splitOnComma rest
    if c = ',' then [] :: r
    else
      match r with
      | h :: t => (c :: h) :: t
      | [] => [[c]]

/-- Read a nonempty all-digit character list as a natural number. -/
def charsToNat? (cs : List Char) : Option ℕ :=
  match cs with
  | [] => none
  | _ =>
    if cs.all (fun c => (digitVal? c).isSome) then
      some (valOfDigits (cs.map digitValD))
    else none

/-- Collaborator serialization of a popularity record as keyed text,
`email,ratingByte,counter` (lofty `Popularimeter::to_string`). -/
def popToString (p : Popularimeter) : String :=
  String.mk (p.email ++ [','] ++ natDigits (starByte p.rating) ++ [','] ++ natDigits p.counter)

/-- Collaborator parse of a popularity record from keyed text, inverse of
`popToString`; `none` on any malformed text. -/
def parsePopularimeter (s : String) : Option Popularimeter :=
  match splitOnComma s.data with
  | [e, rb, cnt] =>
    match charsToNat? rb, charsToNat? cnt with
    | some b, some c =>
      match starOfByte b with
      | some sr => some ⟨e, sr, c⟩
      | none => none
    | _, _ => none
  | _ => none

/-- A tag's generic keyed-text surface (collaborator `Tag`): the facade's
claims touch only the keyed text items, so other per-field accessors are
not carried. -/
structure Tag where
  items : List (ItemKey × String)
  deriving DecidableEq

/-- Collaborator `Tag::get_string`: first item stored under the key. -/
def Tag.getString (t : Tag) (k : ItemKey) : Option String :=
  (t.items.find? (fun kv => kv.1 = k)).map (fun kv => kv.2)

/-- Collaborator `Tag::insert_text`: replace the item under the key. -/
def Tag.insertText (t : Tag) (k : ItemKey) (v : String) : Tag :=
  ⟨(t.items.filter (fun kv => kv.1 ≠ k)) ++ [(k, v)]⟩

/-- Collaborator `Tag::remove_key`: drop every item under the key. -/
def Tag.removeKey (t : Tag) (k : ItemKey) : Tag :=
  ⟨t.items.filter (fun kv => kv.1 ≠ k)⟩

/-- Collaborator `Tag::ratings().next()`: the first stored popularity
record, parsed from its keyed text. -/
def Tag.ratingsFirst (t : Tag) : Option Popularimeter :=
  (t.getString .Popularimeter).bind parsePopularimeter

/-- File types distinguished by `MusicTagger::quality` (lofty `FileType`):
the five lossless ones named in the source plus representative lossy ones. -/
inductive FileType where
  | Flac | Ape | Aiff | Wav | WavPack | Mpeg | Mp4 | Aac | Opus | Vorbis | Speex
  deriving DecidableEq

/-- The `matches!` test of `MusicTagger::quality` (`src/tagger.rs:312`). -/
def isLosslessFileType : FileType → Bool
  | .Flac | .Ape | .Aiff | .Wav | .WavPack => true
  | _ => false

/-- Container-reported audio properties (collaborator `FileProperties`).
The duration is carried in nanoseconds. -/
structure AudioProperties where
  sampleRate : Option ℕ
  bitDepth : Option ℕ
  channels : Option ℕ
  durationNs : ℕ
  audioBitrate : Option ℕ
  deriving DecidableEq

/-- Collaborator `TaggedFile`: file type, audio properties and the tag
collection; `primaryIdx` records which tag (if any) the format designates
as primary. -/
structure TaggedFile where
  fileType : FileType
  properties : AudioProperties
  tags : List Tag
  primaryIdx : Option ℕ
  deriving DecidableEq

/-- Collaborator `TaggedFile::primary_tag`. -/
def TaggedFile.primaryTag (f : TaggedFile) : Option Tag :=
  f.primaryIdx.bind (fun i => f.tags.get? i)

/-- Collaborator `TaggedFile::first_tag`. -/
def TaggedFile.firstTag (f : TaggedFile) : Option Tag :=
  f.tags.head?

/-- Session state `MetaFileInner` (`src/tagger.rs:29`). -/
structure MetaFileInner where
  buffer : List ℕ
  file : TaggedFile
  path : Option String
  deriving DecidableEq

/-- The `MusicTagger` session object (`src/tagger.rs:25`). -/
structure MusicTagger where
  inner : Option MetaFileInner
  deriving DecidableEq

/-- `MusicTagger::new`. -/
def MusicTagger.new : MusicTagger := ⟨none⟩

/-- `MusicTagger::dispose` (`src/tagger.rs:194`). -/
def MusicTagger.dispose (st : MusicTagger) : MusicTagger :=
  if st.inner.isSome then ⟨none⟩ else st

/-- `MusicTagger::is_disposed` (`src/tagger.rs:205`). -/
def MusicTagger.is_disposed (st : MusicTagger) : Bool :=
  st.inner.isNone

/-- The tag addressed by `primary_tag().or_else(first_tag())`
(`MusicTagger::try_tag`, `src/tagger.rs:58`). -/
def selectedTag (inner : MetaFileInner) : Option Tag :=
  match inner.file.primaryTag with
  | some t => some t
  | none => inner.file.firstTag

/-- `MusicTagger::try_tag` (`src/tagger.rs:58`). -/
def MusicTagger.tryTag {R : Type} (st : MusicTagger) (f : Tag → Option R) :
    Except String (Option R) :=
  match st.inner with
  | none => .error ERR_DISPOSED
  | some inner => .ok ((selectedTag inner).bind f)

/-- Index of the tag addressed by `primary_tag_mut` / `first_tag_mut` in
`MusicTagger::try_tag_mut` (`src/tagger.rs:71`). -/
def tryTagMutIdx (file : TaggedFile) : Option ℕ :=
  match file.primaryIdx with
  | some i =>
    if i < file.tags.length then some i
    else if file.tags.isEmpty then none else some 0
  | none => if file.tags.isEmpty then none else some 0

/-- `MusicTagger::try_tag_mut` (`src/tagger.rs:71`): run a mutation on the
primary or first tag, failing with `ERR_NO_TAG` when no tag exists. -/
def MusicTagger.tryTagMut (st : MusicTagger) (f : Tag → Tag) :
    Except String Unit × MusicTagger :=
  match st.inner with
  | none => (.error ERR_DISPOSED, st)
  | some inner =>
    match tryTagMutIdx inner.file with
    | some i =>
      (.ok (), ⟨some { inner with
        file := { inner.file with
          tags := inner.file.tags.set i (f (inner.file.tags.getD i ⟨[]⟩)) } }⟩)
    | none => (.error ERR_NO_TAG, st)

/-! ### Session operations (embedding `src/tagger.rs`) -/

/-- The rating-to-star mapping inlined in `MusicTagger::set_rating`
(`src/tagger.rs:689`). -/
def intToStar : ℕ → Option StarRating
  | 1 => some .one
  | 2 => some .two
  | 3 => some .three
  | 4 => some .four
  | 5 => some .five
  | _ => none

/-- The star-to-rating readback match of `MusicTagger::rating`
(`src/tagger.rs:675`): levels outside one–five read as absent. -/
def starToInt? : Option StarRating → Option ℕ
  | some .one => some 1
  | some .two => some 2
  | some .three => some 3
  | some .four => some 4
  | some .five => some 5
  | _ => none

/-- `MusicTagger::rating` getter (`src/tagger.rs:674`). -/
def MusicTagger.rating (st : MusicTagger) : Except String (Option ℕ) :=
  st.tryTag fun tag => starToInt? ((tag.ratingsFirst).map Popularimeter.rating)

/-- `MusicTagger::set_rating` (`src/tagger.rs:686`): `none` models the
JavaScript `null` clearing input. -/
def MusicTagger.set_rating (st : MusicTagger) (rating : Option ℕ) :
    Except String Unit × MusicTagger :=
  let star? : Except String (Option StarRating) :=
    match rating with
    | some v =>
      match intToStar v with
      | some s => .ok (some s)
      | none => .error ERR_INVALID_RATING
    | none => .ok none
  match star? with
  | .error e => (.error e, st)
  | .ok star =>
    st.tryTagMut fun tag =>
      match star with
      | some s => tag.insertText .Popularimeter (popToString ⟨[], s, 0⟩)
      | none => tag.removeKey .Popularimeter

/-- `MusicTagger::sample_rate` getter (`src/tagger.rs:372`). -/
def MusicTagger.sample_rate (st : MusicTagger) : Except String (Option ℕ) :=
  match st.inner with
  | none => .error ERR_DISPOSED
  | some inner => .ok inner.file.properties.sampleRate

/-- `MusicTagger::bit_depth` getter (`src/tagger.rs:333`). -/
def MusicTagger.bit_depth (st : MusicTagger) : Except String (Option ℕ) :=
  match st.inner with
  | none => .error ERR_DISPOSED
  | some inner => .ok inner.file.properties.bitDepth

/-- `MusicTagger::quality` (`src/tagger.rs:311`). -/
def MusicTagger.quality (st : MusicTagger) : Except String String :=
  match st.inner with
  | none => .error ERR_DISPOSED
  | some inner =>
    let isLossless := isLosslessFileType inner.file.fileType
    if isLossless = false then .ok "HQ"
    else
      match inner.file.properties.sampleRate, inner.file.properties.bitDepth with
      | some sr, some bd =>
        if 44100 < sr ∧ 16 ≤ bd then .ok "HiRes" else .ok "SQ"
      | _, _ => .ok "SQ"

/-- `f64::EPSILON`. -/
def f64Epsilon : ℚ := 1 / 2 ^ 52

/-- Rust `as u32` on a rounded nonnegative float: saturating conversion. -/
def u32Saturate (n : ℤ) : ℕ :=
  (min (max n 0) 4294967295).toNat

/-- `MusicTagger::bit_rate` (`src/tagger.rs:345`): the container-reported
bit rate if present; otherwise an estimate from the held buffer size and
duration, accepted only inside `8..=10000` kbps. -/
def MusicTagger.bit_rate (st : MusicTagger) : Except String (Option ℕ) :=
  match st.inner with
  | none => .error ERR_DISPOSED
  | some inner =>
    match inner.file.properties.audioBitrate with
    | some bitrate => .ok (some bitrate)
    | none =>
      if inner.file.properties.durationNs = 0 then .ok none
      else
        let durationSecs : ℚ := (inner.file.properties.durationNs : ℚ) / 1000000000
        if durationSecs ≤ f64Epsilon then .ok none
        else
          let fileSizeBytes : ℚ := (inner.buffer.length : ℚ)
          let bitrateKbps : ℕ :=
            u32Saturate (roundAway (fileSizeBytes * 8 / (durationSecs * 1000)))
          .ok (if 8 ≤ bitrateKbps ∧ bitrateKbps ≤ 10000 then some bitrateKbps else none)

/-- Outcome of the collaborator probe (`Probe::guess_file_type().read()`,
§6 `probe`): a parse failure or a parsed file structure. -/
inductive ProbeOutcome where
  | err (msg : String)
  | ok (file : TaggedFile)

/-- `MusicTagger::load_buffer` (`src/tagger.rs:129`): dispose, probe the
bytes, and require at least one tag. -/
def MusicTagger.load_buffer (st : MusicTagger) (buffer : List ℕ)
    (outcome : ProbeOutcome) : Except String Unit × MusicTagger :=
  let st := st.dispose
  match outcome with
  | .err e => (.error e, st)
  | .ok file =>
    if file.primaryTag.isNone ∧ file.firstTag.isNone then
      (.error ERR_NO_TAG, st)
    else
      (.ok (), ⟨some ⟨buffer, file, none⟩⟩)

/-- `MusicTagger::load_path` (`src/tagger.rs:161`): refuse under wasm,
else dispose, probe the path, require at least one tag; the held buffer
starts empty (`Vec::with_capacity(0)`). -/
def MusicTagger.load_path (st : MusicTagger) (path : String) (isWasm : Bool)
    (outcome : ProbeOutcome) : Except String Unit × MusicTagger :=
  if isWasm then (.error ERR_INVALID_IN_WASM, st)
  else
    let st := st.dispose
    match outcome with
    | .err e => (.error e, st)
    | .ok file =>
      if file.primaryTag.isNone ∧ file.firstTag.isNone then
        (.error ERR_NO_TAG, st)
      else
        (.ok (), ⟨some ⟨[], file, some path⟩⟩)

/-- Outcomes of the external write effects performed by `MusicTagger::save`:
serializing into the held buffer (`save_to` through a cursor — on failure the
cursor may have left partial bytes behind), writing the buffer to a custom
path (`std::fs::write`), byte-copying the source file (`std::fs::copy`) and
serializing directly to a path (`save_to_path`). -/
structure SaveEnv where
  saveToBuffer : Except (String × List ℕ) (List ℕ)
  writeCustom : Except String Unit
  copyToTarget : Except String Unit
  saveToTarget : Except String Unit
  isWasm : Bool

/-- Body of `MusicTagger::save` (`src/tagger.rs:218`) on a loaded session.
Buffer-mode (nonempty held buffer): serialize into the held buffer in place,
then — when a custom path is supplied — additionally write the updated
buffer to it.  Path-mode: resolve the target path (custom, else the load
path), byte-copy the original when relocating, then serialize to the
target; the stored session state is not touched. -/
def saveInner (inner : MetaFileInner) (path : Option String) (env : SaveEnv) :
    Except String Unit × MusicTagger :=
  if inner.buffer ≠ [] then
    match env.saveToBuffer with
    | .error ec =>
      (.error ("Failed to save buffer: " ++ ec.1), ⟨some { inner with buffer := ec.2 }⟩)
    | .ok newBuf =>
      match path with
      | some customPath =>
        if env.isWasm then
          (.error ERR_INVALID_IN_WASM, ⟨some { inner with buffer := newBuf }⟩)
        else
          match env.writeCustom with
          | .error e =>
            (.error ("Failed writing to custom path '" ++ customPath ++ "': " ++ e),
              ⟨some { inner with buffer := newBuf }⟩)
          | .ok _ => (.ok (), ⟨some { inner with buffer := newBuf }⟩)
      | none => (.ok (), ⟨some { inner with buffer := newBuf }⟩)
  else
    if path.isSome ∧ env.isWasm then (.error ERR_INVALID_IN_WASM, ⟨some inner⟩)
    else
      match (match path with | some p => some p | none => inner.path) with
      | some targetPath =>
        match
          (if path.isSome then
            match inner.path with
            | some sourcePath =>
              if sourcePath ≠ targetPath then
                match env.copyToTarget with
                | .error e =>
                  .error ("Failed copying '" ++ sourcePath ++ "' to custom path '"
                    ++ targetPath ++ "': " ++ e)
                | .ok _ => .ok ()
              else .ok ()
            | none => .ok ()
          else (.ok () : Except String Unit)) with
        | .error e => (.error e, ⟨some inner⟩)
        | .ok _ =>
          match env.saveToTarget with
          | .error e =>
            (.error ("Failed saving to file '" ++ targetPath ++ "': " ++ e), ⟨some inner⟩)
          | .ok _ => (.ok (), ⟨some inner⟩)
      | none => (.error "No file path or buffer setup", ⟨some inner⟩)

/-- `MusicTagger::save` (`src/tagger.rs:218`). -/
def MusicTagger.save (st : MusicTagger) (path : Option String) (env : SaveEnv) :
    Except String Unit × MusicTagger :=
  match st.inner with
  | none => (.error ERR_DISPOSED, st)
  | some inner => saveInner inner path env

/-- Artwork item (`src/meta_picture.rs`, `MetaPicture`). -/
structure MetaPicture where
  coverType : String
  mimeType : Option String
  description : Option String
  data : List ℕ
  deriving DecidableEq

/-- A positional artwork edit issued by the setter against the collaborator
(`Tag::set_picture` / `Tag::remove_picture`). -/
inductive PicOp where
  | set (i : ℕ) (p : MetaPicture)
  | remove (i : ℕ)
  deriving DecidableEq

/-- The edit sequence issued by `MusicTagger::set_pictures`
(`src/tagger.rs:800`) given the desired list (`none` models `null`) and the
current picture count. -/
def set_pictures_ops (pictures : Option (List MetaPicture)) (old_len : ℕ) : List PicOp :=
  let new_pics := match pictures with | some pics => pics | none => []
  let new_len := new_pics.length
  if new_len < old_len then
    (new_pics.enum.map fun ip => PicOp.set ip.1 ip.2)
      ++ ((List.range' new_len (old_len - new_len)).reverse.map PicOp.remove)
  else
    new_pics.enum.map fun ip => PicOp.set ip.1 ip.2

/-! ### Concrete session fixtures for evaluating the theorems -/

/-- An empty tag. -/
def tagEmpty : Tag := ⟨[]⟩

/-- A file structure fixture. -/
def mkFile (ft : FileType) (sr bd : Option ℕ) (durNs : ℕ) (abr : Option ℕ) : TaggedFile :=
  ⟨ft, ⟨sr, bd, some 2, durNs, abr⟩, [tagEmpty], none⟩

/-- A buffer-mode session over a file fixture. -/
def mkTagger (buf : List ℕ) (f : TaggedFile) : MusicTagger :=
  ⟨some ⟨buf, f, none⟩⟩

/-- A file fixture with no container-reported bit rate. -/
def pathFileFixture : TaggedFile := mkFile .Flac (some 44100) (some 16) 1000000000 none

/-- The session produced by a successful path-mode load of `pathFileFixture`. -/
def pathInnerFixture : MetaFileInner := ⟨[], pathFileFixture, some "a.flac"⟩

/-- A tag holding a popularity record at the zero level (outside 1–5). -/
def zeroPopTag : Tag := ⟨[(.Popularimeter, ",0,0")]⟩

def zeroPopFile : TaggedFile :=
  ⟨.Flac, ⟨some 44100, some 16, some 2, 1000000000, none⟩, [zeroPopTag], none⟩

/-- A buffer-mode session fixture for exercising `save`. -/
def cexSaveSt : MusicTagger :=
  ⟨some ⟨[0], mkFile .Mpeg (some 44100) (some 16) 1000000000 none, none⟩⟩

/-- External-effect outcomes: serialization into the held buffer succeeds
with new bytes `[1]`, the additional write to the custom path fails. -/
def cexSaveEnv : SaveEnv := ⟨.ok [1], .error "disk full", .ok (), .ok (), false⟩

/-! ### Theorems -/

/-- One unfolding step of the fuel-driven leading-pattern removal. -/
theorem dropLeadingRepAux_succ (fuel : ℕ) (pat s : List Char) :
    dropLeadingRepAux (fuel + 1) pat s =
      if pat ≠ [] ∧ startsWith pat s = true then
        dropLeadingRepAux fuel pat (s.drop pat.length)
      else s := rfl

/-- The removal loop stops as soon as the pattern no longer leads. -/
theorem dropLeadingRepAux_stop (fuel : ℕ) (pat s : List Char)
    (h : ¬(pat ≠ [] ∧ startsWith pat s = true)) :
    dropLeadingRepAux fuel pat s = s := by
  cases fuel with
  | zero => rfl
  | succ f => rw [dropLeadingRepAux_succ, if_neg h]

/-- Removing trailing text never strips when the reversed pattern does not
lead the reversed string. -/
theorem trimEndMatchesChars_nostrip (s pat : List Char)
    (h : startsWith pat.reverse s.reverse = false) :
    trimEndMatchesChars s pat = s := by
  unfold trimEndMatchesChars dropLeadingRep
  rw [dropLeadingRepAux_stop, List.reverse_reverse]
  simp [h]

/-- `digitChar` always produces one of the ten digit characters. -/
theorem digitChar_mem_digits (d : ℕ) :
    digitChar d ∈ ['0', '1', '2', '3', '4', '5', '6', '7', '8', '9'] := by
  rcases d with _ | _ | _ | _ | _ | _ | _ | _ | _ | d <;> simp [digitChar]

/-- `digitVal?` recovers the digit encoded by `digitChar`. -/
theorem digitVal?_digitChar (d : ℕ) (h : d < 10) :
    digitVal? (digitChar d) = some d := by
  interval_cases d <;> decide

/-- Every digit character carries a value. -/
theorem digitVal?_isSome_digitChar (d : ℕ) : (digitVal? (digitChar d)).isSome = true := by
  have h := digitChar_mem_digits d
  simp only [List.mem_cons, List.not_mem_nil, or_false] at h
  rcases h with h | h | h | h | h | h | h | h | h | h <;> rw [h] <;> decide

/-- Digit characters are not whitespace. -/
theorem digitChar_not_ws (d : ℕ) : isWsChar (digitChar d) = false := by
  have h := digitChar_mem_digits d
  simp only [List.mem_cons, List.not_mem_nil, or_false] at h
  rcases h with h | h | h | h | h | h | h | h | h | h <;> rw [h] <;> decide

theorem digitChar_ne_plus (d : ℕ) : digitChar d ≠ '+' := by
  have h := digitChar_mem_digits d
  simp only [List.mem_cons, List.not_mem_nil, or_false] at h
  rcases h with h | h | h | h | h | h | h | h | h | h <;> rw [h] <;> decide

theorem digitChar_ne_minus (d : ℕ) : digitChar d ≠ '-' := by
  have h := digitChar_mem_digits d
  simp only [List.mem_cons, List.not_mem_nil, or_false] at h
  rcases h with h | h | h | h | h | h | h | h | h | h <;> rw [h] <;> decide

/-- The fuel parameter of `natDigitsAux` is irrelevant once sufficient. -/
theorem natDigitsAux_congr :
    ∀ (f1 f2 n : ℕ), n < f1 → n < f2 → natDigitsAux f1 n = natDigitsAux f2 n := by
  intro f1
  induction f1 with
  | zero => intro f2 n h1 _; omega
  | succ g ih =>
    intro f2 n h1 h2
    cases f2 with
    | zero => omega
    | succ h =>
      show natDigitsAux (g + 1) n = natDigitsAux (h + 1) n
      by_cases h10 : n < 10
      · simp [natDigitsAux, h10]
      · have hn : 0 < n := by omega
        have hlt : n / 10 < n := Nat.div_lt_self hn (by norm_num)
        simp only [natDigitsAux, if_neg h10]
        rw [ih h (n / 10) (by omega) (by omega)]

/-- Recursion equation for `natDigits`. -/
theorem natDigits_unfold (n : ℕ) :
    natDigits n =
      if n < 10 then [digitChar n]
      else natDigits (n / 10) ++ [digitChar (n % 10)] := by
  show natDigitsAux (n + 1) n = _
  by_cases h10 : n < 10
  · simp [natDigitsAux, h10]
  · have hn : 0 < n := by omega
    have hlt : n / 10 < n := Nat.div_lt_self hn (by norm_num)
    simp only [natDigitsAux, if_neg h10]
    rw [natDigitsAux_congr n (n / 10 + 1) (n / 10) (by omega) (by omega)]
    rfl

theorem natDigits_ne_nil (n : ℕ) : natDigits n ≠ [] := by
  rw [natDigits_unfold]
  split <;> simp

/-- Every character of `natDigits n` is a digit character. -/
theorem natDigits_mem (n : ℕ) : ∀ c ∈ natDigits n, ∃ d, d < 10 ∧ c = digitChar d := by
  induction n using Nat.strong_induction_on with
  | _ n ih =>
    rw [natDigits_unfold]
    by_cases h10 : n < 10
    · rw [if_pos h10]
      intro c hc
      simp at hc
      exact ⟨n, h10, hc⟩
    · rw [if_neg h10]
      intro c hc
      rcases List.mem_append.mp hc with hmem | hmem
      · exact ih (n / 10) (Nat.div_lt_self (by omega) (by norm_num)) c hmem
      · simp at hmem
        exact ⟨n % 10, Nat.mod_lt _ (by norm_num), hmem⟩

/-- Every character of `natDigitsPad k n` is a digit character. -/
theorem natDigitsPad_mem (k : ℕ) :
    ∀ (n : ℕ), ∀ c ∈ natDigitsPad k n, ∃ d, d < 10 ∧ c = digitChar d := by
  induction k with
  | zero => intro n c hc; simp [natDigitsPad] at hc
  | succ k ih =>
    intro n c hc
    rcases List.mem_append.mp hc with hmem | hmem
    · exact ih (n / 10) c hmem
    · simp at hmem
      exact ⟨n % 10, Nat.mod_lt _ (by norm_num), hmem⟩

theorem natDigitsPad_length (k n : ℕ) : (natDigitsPad k n).length = k := by
  induction k generalizing n with
  | zero => rfl
  | succ k ih => simp [natDigitsPad, ih]

theorem digitValD_digitChar (d : ℕ) (h : d < 10) : digitValD (digitChar d) = d := by
  simp [digitValD, digitVal?_digitChar d h]

/-- `takeDigits` consumes exactly a leading all-digit block. -/
theorem takeDigits_append (ds rest : List Char)
    (hds : ∀ c ∈ ds, (digitVal? c).isSome = true)
    (hrest : ∀ c, rest.head? = some c → digitVal? c = none) :
    takeDigits (ds ++ rest) = (ds.map digitValD, rest) := by
  induction ds with
  | nil =>
    simp only [List.nil_append, List.map_nil]
    cases rest with
    | nil => rfl
    | cons c cs => simp [takeDigits, hrest c rfl]
  | cons c ds ih =>
    obtain ⟨d, hd⟩ := Option.isSome_iff_exists.mp (hds c (List.mem_cons_self c ds))
    have ih' := ih (fun x hx => hds x (List.mem_cons_of_mem c hx))
    simp [takeDigits, hd, ih', digitValD]

theorem valOfDigits_concat (ds : List ℕ) (d : ℕ) :
    valOfDigits (ds ++ [d]) = valOfDigits ds * 10 + d := by
  simp [valOfDigits, List.foldl_append]

/-- Reading back the digits of `n` yields `n`. -/
theorem valOfDigits_natDigits (n : ℕ) :
    valOfDigits ((natDigits n).map digitValD) = n := by
  induction n using Nat.strong_induction_on with
  | _ n ih =>
    rw [natDigits_unfold]
    by_cases h10 : n < 10
    · rw [if_pos h10]
      simp [valOfDigits, digitValD_digitChar n h10]
    · rw [if_neg h10]
      rw [List.map_append, List.map_singleton, digitValD_digitChar _ (Nat.mod_lt _ (by norm_num)),
        valOfDigits_concat, ih (n / 10) (Nat.div_lt_self (by omega) (by norm_num))]
      omega

/-- Reading back the `k` padded digits yields `n % 10 ^ k`. -/
theorem valOfDigits_natDigitsPad (k : ℕ) :
    ∀ n : ℕ, valOfDigits ((natDigitsPad k n).map digitValD) = n % 10 ^ k := by
  induction k with
  | zero => intro n; simp [natDigitsPad, valOfDigits, Nat.mod_one]
  | succ k ih =>
    intro n
    show valOfDigits ((natDigitsPad k (n / 10) ++ [digitChar (n % 10)]).map digitValD) = _
    rw [List.map_append, List.map_singleton, digitValD_digitChar _ (Nat.mod_lt _ (by norm_num)),
      valOfDigits_concat, ih (n / 10)]
    have h1 : (10 : ℕ) ^ (k + 1) = 10 * 10 ^ k := by ring
    rw [h1, Nat.mod_mul]
    ring

/-- Trimming a list whose first and last characters are not whitespace is the
identity. -/
theorem trimChars_eq_self (l : List Char)
    (hhead : ∀ c, l.head? = some c → isWsChar c = false)
    (hlast : ∀ c, l.getLast? = some c → isWsChar c = false) :
    trimChars l = l := by
  cases l with
  | nil => rfl
  | cons a L =>
    unfold trimChars
    rw [List.dropWhile_cons, if_neg (by simp [hhead a rfl])]
    rcases List.exists_cons_of_ne_nil (l := (a :: L).reverse) (by simp) with ⟨b, M, hM⟩
    have hb : isWsChar b = false := by
      apply hlast
      rw [← List.head?_reverse, hM]
      rfl
    rw [hM, List.dropWhile_cons, if_neg (by simp [hb]), ← hM, List.reverse_reverse]

/-- Trimming drops a single trailing space from a list whose first and last
remaining characters are not whitespace. -/
theorem trimChars_concat_space (a : Char) (M : List Char) (b : Char)
    (ha : isWsChar a = false) (hb : isWsChar b = false) :
    trimChars ((a :: (M ++ [b])) ++ [' ']) = a :: (M ++ [b]) := by
  unfold trimChars
  rw [List.cons_append, List.dropWhile_cons, if_neg (by simp [ha])]
  have h1 : ((a :: (M ++ [b])) ++ [' ']).reverse = ' ' :: ((a :: (M ++ [b])).reverse) := by
    simp
  rw [← List.cons_append, h1]
  rw [List.dropWhile_cons, if_pos (by decide)]
  have h2 : (a :: (M ++ [b])).reverse = b :: ((a :: M).reverse) := by
    rw [show a :: (M ++ [b]) = (a :: M) ++ [b] from by simp]
    simp
  rw [h2, List.dropWhile_cons, if_neg (by simp [hb]), ← h2, List.reverse_reverse]

/-- Stripping `dB` from a string ending in `" dB"` removes exactly that
occurrence (the resulting trailing space stops the repeat loop). -/
theorem trimEndMatches_space_dB (X : List Char) :
    trimEndMatchesChars (X ++ [' ', 'd', 'B']) ['d', 'B'] = X ++ [' '] := by
  unfold trimEndMatchesChars dropLeadingRep
  have h1 : (X ++ [' ', 'd', 'B']).reverse = 'B' :: 'd' :: ' ' :: X.reverse := by
    simp
  rw [h1]
  have h2 : ('B' :: 'd' :: ' ' :: X.reverse).length = (X.reverse.length + 2) + 1 := by
    simp
  rw [show (['d', 'B'] : List Char).reverse = ['B', 'd'] from rfl, h2,
    dropLeadingRepAux_succ, if_pos (by refine ⟨by simp, ?_⟩; simp [startsWith])]
  rw [show (['B', 'd'] : List Char).length = 2 from rfl]
  rw [show List.drop 2 ('B' :: 'd' :: ' ' :: X.reverse) = ' ' :: X.reverse from rfl]
  rw [dropLeadingRepAux_stop _ _ _ (by simp [startsWith])]
  simp

/-- The `db` pass does not strip a string ending in a space. -/
theorem trimEndMatches_space_db (X : List Char) :
    trimEndMatchesChars (X ++ [' ']) ['d', 'b'] = X ++ [' '] := by
  apply trimEndMatchesChars_nostrip
  rw [show (['d', 'b'] : List Char).reverse = ['b', 'd'] from rfl,
    show (X ++ [' ']).reverse = ' ' :: X.reverse from by simp]
  simp [startsWith]

theorem parseSign_not_sign (c : Char) (cs : List Char) (h1 : c ≠ '+') (h2 : c ≠ '-') :
    parseSign (c :: cs) = (1, c :: cs) := by
  simp [parseSign, h1, h2]

theorem natDigits_all_isSome (n : ℕ) :
    ∀ c ∈ natDigits n, (digitVal? c).isSome = true := by
  intro c hc
  obtain ⟨d, _, hcd⟩ := natDigits_mem n c hc
  rw [hcd]
  exact digitVal?_isSome_digitChar d

theorem natDigitsPad_all_isSome (k n : ℕ) :
    ∀ c ∈ natDigitsPad k n, (digitVal? c).isSome = true := by
  intro c hc
  obtain ⟨d, _, hcd⟩ := natDigitsPad_mem k n c hc
  rw [hcd]
  exact digitVal?_isSome_digitChar d

/-- Parsing the rendered shape `digits.digits` (with a `k`-padded fraction)
recovers the encoded rational. -/
theorem parseF64_core (q r k : ℕ) :
    parseF64Chars (natDigits q ++ '.' :: natDigitsPad k r) =
      some ((q : ℚ) + ((r % 10 ^ k : ℕ) : ℚ) / 10 ^ k) := by
  obtain ⟨c, t, hct⟩ := List.exists_cons_of_ne_nil (natDigits_ne_nil q)
  obtain ⟨d, _, hcd⟩ := natDigits_mem q c (by rw [hct]; exact List.mem_cons_self _ _)
  have hsign : parseSign (natDigits q ++ '.' :: natDigitsPad k r)
      = (1, natDigits q ++ '.' :: natDigitsPad k r) := by
    rw [hct, List.cons_append,
      parseSign_not_sign c _ (hcd ▸ digitChar_ne_plus d) (hcd ▸ digitChar_ne_minus d),
      ← List.cons_append]
  have htake1 : takeDigits (natDigits q ++ '.' :: natDigitsPad k r)
      = ((natDigits q).map digitValD, '.' :: natDigitsPad k r) :=
    takeDigits_append _ _ (natDigits_all_isSome q)
      (by intro x hx; simp at hx; rw [← hx]; decide)
  have htake2 : takeDigits (natDigitsPad k r) = ((natDigitsPad k r).map digitValD, []) := by
    have h := takeDigits_append (natDigitsPad k r) [] (natDigitsPad_all_isSome k r)
      (by intro x hx; simp at hx)
    simpa using h
  have hmapne : (natDigits q).map digitValD ≠ [] := by
    simp [natDigits_ne_nil q]
  simp only [parseF64Chars, hsign, htake1, htake2]
  rw [if_neg (by simp [hmapne])]
  simp [valOfDigits_natDigits, valOfDigits_natDigitsPad, natDigitsPad_length]

/-- Variant of `parseF64_core` with an explicit leading `+`. -/
theorem parseF64_plus_core (q r k : ℕ) :
    parseF64Chars ('+' :: (natDigits q ++ '.' :: natDigitsPad k r)) =
      some ((q : ℚ) + ((r % 10 ^ k : ℕ) : ℚ) / 10 ^ k) := by
  obtain ⟨c, t, hct⟩ := List.exists_cons_of_ne_nil (natDigits_ne_nil q)
  obtain ⟨d, _, hcd⟩ := natDigits_mem q c (by rw [hct]; exact List.mem_cons_self _ _)
  have hsign : parseSign ('+' :: (natDigits q ++ '.' :: natDigitsPad k r))
      = (1, natDigits q ++ '.' :: natDigitsPad k r) := by
    simp [parseSign]
  have hsign2 : parseSign (natDigits q ++ '.' :: natDigitsPad k r)
      = (1, natDigits q ++ '.' :: natDigitsPad k r) := by
    rw [hct, List.cons_append,
      parseSign_not_sign c _ (hcd ▸ digitChar_ne_plus d) (hcd ▸ digitChar_ne_minus d),
      ← List.cons_append]
  have h := parseF64_core q r k
  simp only [parseF64Chars, hsign, hsign2] at h ⊢
  exact h

/-- Variant of `parseF64_core` with an explicit leading `-`. -/
theorem parseF64_minus_core (q r k : ℕ) :
    parseF64Chars ('-' :: (natDigits q ++ '.' :: natDigitsPad k r)) =
      some (-((q : ℚ) + ((r % 10 ^ k : ℕ) : ℚ) / 10 ^ k)) := by
  have hsign : parseSign ('-' :: (natDigits q ++ '.' :: natDigitsPad k r))
      = (-1, natDigits q ++ '.' :: natDigitsPad k r) := by
    simp [parseSign]
  have htake1 : takeDigits (natDigits q ++ '.' :: natDigitsPad k r)
      = ((natDigits q).map digitValD, '.' :: natDigitsPad k r) :=
    takeDigits_append _ _ (natDigits_all_isSome q)
      (by intro x hx; simp at hx; rw [← hx]; decide)
  have htake2 : takeDigits (natDigitsPad k r) = ((natDigitsPad k r).map digitValD, []) := by
    have h := takeDigits_append (natDigitsPad k r) [] (natDigitsPad_all_isSome k r)
      (by intro x hx; simp at hx)
    simpa using h
  have hmapne : (natDigits q).map digitValD ≠ [] := by
    simp [natDigits_ne_nil q]
  simp only [parseF64Chars, hsign, htake1, htake2]
  rw [if_neg (by simp [hmapne])]
  simp [valOfDigits_natDigits, valOfDigits_natDigitsPad, natDigitsPad_length]

theorem beq_B_digitChar (y : ℕ) : (('B' : Char) == digitChar y) = false := by
  have h := digitChar_mem_digits y
  simp only [List.mem_cons, List.not_mem_nil, or_false] at h
  rcases h with h | h | h | h | h | h | h | h | h | h <;> rw [h] <;> decide

theorem beq_b_digitChar (y : ℕ) : (('b' : Char) == digitChar y) = false := by
  have h := digitChar_mem_digits y
  simp only [List.mem_cons, List.not_mem_nil, or_false] at h
  rcases h with h | h | h | h | h | h | h | h | h | h <;> rw [h] <;> decide

/-- Neither `dB` pass strips a string ending in a digit character. -/
theorem trimEndMatches_digit_dB (M : List Char) (y : ℕ) :
    trimEndMatchesChars (M ++ [digitChar y]) ['d', 'B'] = M ++ [digitChar y] := by
  apply trimEndMatchesChars_nostrip
  rw [show (['d', 'B'] : List Char).reverse = ['B', 'd'] from rfl,
    show (M ++ [digitChar y]).reverse = digitChar y :: M.reverse from by simp]
  simp [startsWith, beq_B_digitChar y]

theorem trimEndMatches_digit_db (M : List Char) (y : ℕ) :
    trimEndMatchesChars (M ++ [digitChar y]) ['d', 'b'] = M ++ [digitChar y] := by
  apply trimEndMatchesChars_nostrip
  rw [show (['d', 'b'] : List Char).reverse = ['b', 'd'] from rfl,
    show (M ++ [digitChar y]).reverse = digitChar y :: M.reverse from by simp]
  simp [startsWith, beq_b_digitChar y]

theorem natDigitsPad_eq_concat (k x : ℕ) (hk : 0 < k) :
    natDigitsPad k x = natDigitsPad (k - 1) (x / 10) ++ [digitChar (x % 10)] := by
  cases k with
  | zero => omega
  | succ kk => rfl

theorem roundAway_nonneg (x : ℚ) (h : 0 ≤ x) : 0 ≤ roundAway x := by
  unfold roundAway
  rw [if_pos h]
  exact Int.floor_nonneg.mpr (by linarith)

theorem roundAway_nonpos_of_neg (x : ℚ) (h : ¬0 ≤ x) : roundAway x ≤ 0 := by
  unfold roundAway
  rw [if_neg h]
  have : (0 : ℤ) ≤ ⌊-x + 1 / 2⌋ := Int.floor_nonneg.mpr (by linarith)
  omega

/-- Full decode pipeline on a signed rendered number carrying the `" dB"`
suffix: only that suffix is stripped. -/
theorem stripped_suffix_chain (a : Char) (ha : isWsChar a = false) (q x k : ℕ) (hk : 0 < k) :
    trimChars (trimEndMatchesChars (trimEndMatchesChars (trimChars
      (a :: (natDigits q ++ '.' :: natDigitsPad k x ++ [' ', 'd', 'B']))) ['d', 'B']) ['d', 'b'])
    = a :: (natDigits q ++ '.' :: natDigitsPad k x) := by
  have h1 : trimChars (a :: (natDigits q ++ '.' :: natDigitsPad k x ++ [' ', 'd', 'B']))
      = a :: (natDigits q ++ '.' :: natDigitsPad k x ++ [' ', 'd', 'B']) := by
    apply trimChars_eq_self
    · intro c hc
      simp only [List.head?_cons, Option.some.injEq] at hc
      rw [← hc]; exact ha
    · intro c hc
      rw [show a :: (natDigits q ++ '.' :: natDigitsPad k x ++ [' ', 'd', 'B'])
          = (a :: (natDigits q ++ '.' :: natDigitsPad k x ++ [' ', 'd'])) ++ ['B'] from by simp,
        List.getLast?_concat] at hc
      simp only [Option.some.injEq] at hc
      rw [← hc]; decide
  rw [h1,
    show a :: (natDigits q ++ '.' :: natDigitsPad k x ++ [' ', 'd', 'B'])
      = (a :: (natDigits q ++ '.' :: natDigitsPad k x)) ++ [' ', 'd', 'B'] from by simp,
    trimEndMatches_space_dB, trimEndMatches_space_db]
  rw [show (a :: (natDigits q ++ '.' :: natDigitsPad k x)) ++ [' ']
      = (a :: ((natDigits q ++ '.' :: natDigitsPad (k - 1) (x / 10)) ++ [digitChar (x % 10)])) ++ [' ']
      from by rw [natDigitsPad_eq_concat k x hk]; simp,
    trimChars_concat_space a _ _ ha (digitChar_not_ws _)]
  rw [natDigitsPad_eq_concat k x hk]
  simp

/-- Full decode pipeline on a signed rendered number with no unit suffix:
nothing is stripped. -/
theorem stripped_plain_chain (a : Char) (ha : isWsChar a = false) (q x k : ℕ) (hk : 0 < k) :
    trimChars (trimEndMatchesChars (trimEndMatchesChars (trimChars
      (a :: (natDigits q ++ '.' :: natDigitsPad k x))) ['d', 'B']) ['d', 'b'])
    = a :: (natDigits q ++ '.' :: natDigitsPad k x) := by
  have hsplit : a :: (natDigits q ++ '.' :: natDigitsPad k x)
      = (a :: (natDigits q ++ '.' :: natDigitsPad (k - 1) (x / 10))) ++ [digitChar (x % 10)] := by
    rw [natDigitsPad_eq_concat k x hk]; simp
  have h1 : trimChars (a :: (natDigits q ++ '.' :: natDigitsPad k x))
      = a :: (natDigits q ++ '.' :: natDigitsPad k x) := by
    apply trimChars_eq_self
    · intro c hc
      simp only [List.head?_cons, Option.some.injEq] at hc
      rw [← hc]; exact ha
    · intro c hc
      rw [hsplit, List.getLast?_concat] at hc
      simp only [Option.some.injEq] at hc
      rw [← hc]; exact digitChar_not_ws _
  rw [h1, hsplit, trimEndMatches_digit_dB, trimEndMatches_digit_db, ← hsplit, h1]

/-- Full decode pipeline on an unsigned rendered number with no unit suffix:
nothing is stripped. -/
theorem stripped_plain_chain_nosign (q x k : ℕ) (hk : 0 < k) :
    trimChars (trimEndMatchesChars (trimEndMatchesChars (trimChars
      (natDigits q ++ '.' :: natDigitsPad k x)) ['d', 'B']) ['d', 'b'])
    = natDigits q ++ '.' :: natDigitsPad k x := by
  obtain ⟨c, t, hct⟩ := List.exists_cons_of_ne_nil (natDigits_ne_nil q)
  obtain ⟨d, _, hcd⟩ := natDigits_mem q c (by rw [hct]; exact List.mem_cons_self _ _)
  have hsplit : natDigits q ++ '.' :: natDigitsPad k x
      = (natDigits q ++ '.' :: natDigitsPad (k - 1) (x / 10)) ++ [digitChar (x % 10)] := by
    rw [natDigitsPad_eq_concat k x hk]; simp
  have h1 : trimChars (natDigits q ++ '.' :: natDigitsPad k x)
      = natDigits q ++ '.' :: natDigitsPad k x := by
    apply trimChars_eq_self
    · intro e he
      rw [hct, List.cons_append, List.head?_cons] at he
      simp only [Option.some.injEq] at he
      rw [← he, hcd]; exact digitChar_not_ws d
    · intro e he
      rw [hsplit, List.getLast?_concat] at he
      simp only [Option.some.injEq] at he
      rw [← he]; exact digitChar_not_ws _
  rw [h1, hsplit, trimEndMatches_digit_dB, trimEndMatches_digit_db, ← hsplit, h1]

theorem string_mk_data (l : List Char) : (String.mk l).data = l := rfl

theorem div_add_mod_q (m B : ℕ) (hB : (0 : ℚ) < (B : ℚ)) :
    ((m / B : ℕ) : ℚ) + ((m % B : ℕ) : ℚ) / (B : ℚ) = (m : ℚ) / (B : ℚ) := by
  have hBn : 0 < B := by exact_mod_cast hB
  field_simp
  exact_mod_cast (by rw [Nat.mul_comm]; exact Nat.div_add_mod m B : m / B * B + m % B = m)

theorem natAbs_cast_q_of_nonneg (x : ℤ) (h : 0 ≤ x) : ((x.natAbs : ℕ) : ℚ) = (x : ℚ) := by
  rw [Int.cast_natAbs]
  exact_mod_cast abs_of_nonneg h

theorem natAbs_cast_q_of_nonpos (x : ℤ) (h : x ≤ 0) : ((x.natAbs : ℕ) : ℚ) = -(x : ℚ) := by
  rw [Int.cast_natAbs]
  exact_mod_cast abs_of_nonpos h

/-- Decoding an encoded gain value recovers the value rounded (half away
from zero) to two decimal places. -/
theorem parse_format_gain (v : ℚ) :
    parse_replaygain_value (format_replaygain_gain v)
      = some ((roundAway (v * 100) : ℚ) / 100) := by
  simp only [parse_replaygain_value, format_replaygain_gain, string_mk_data]
  have hmm : ∀ m : ℕ, m % 100 % 10 ^ 2 = m % 100 := by intro m; norm_num
  by_cases hv : v < 0
  · simp only [if_pos hv]
    rw [stripped_suffix_chain '-' (by decide) _ _ 2 (by norm_num), parseF64_minus_core, hmm]
    have h100 : ((100 : ℕ) : ℚ) = 100 := by norm_num
    rw [show ((10 : ℚ) ^ 2) = ((100 : ℕ) : ℚ) from by norm_num,
      div_add_mod_q _ 100 (by norm_num)]
    have hneg : roundAway (v * 100) ≤ 0 :=
      roundAway_nonpos_of_neg _ (not_le.mpr (mul_neg_of_neg_of_pos hv (by norm_num)))
    have hcast : (((roundAway (v * 100)).natAbs : ℕ) : ℚ) = -((roundAway (v * 100) : ℤ) : ℚ) :=
      natAbs_cast_q_of_nonpos _ hneg
    rw [h100, hcast]
    congr 1
    ring
  · simp only [if_neg hv]
    rw [stripped_suffix_chain '+' (by decide) _ _ 2 (by norm_num), parseF64_plus_core, hmm]
    have h100 : ((100 : ℕ) : ℚ) = 100 := by norm_num
    rw [show ((10 : ℚ) ^ 2) = ((100 : ℕ) : ℚ) from by norm_num,
      div_add_mod_q _ 100 (by norm_num)]
    have hpos : 0 ≤ roundAway (v * 100) :=
      roundAway_nonneg _ (by have : 0 ≤ v := not_lt.mp hv; positivity)
    have hcast : (((roundAway (v * 100)).natAbs : ℕ) : ℚ) = ((roundAway (v * 100) : ℤ) : ℚ) :=
      natAbs_cast_q_of_nonneg _ hpos
    rw [h100, hcast]

/-- Decoding an encoded peak value recovers the value rounded (half away
from zero) to six decimal places. -/
theorem parse_format_peak (v : ℚ) :
    parse_replaygain_value (format_replaygain_peak v)
      = some ((roundAway (v * 1000000) : ℚ) / 1000000) := by
  simp only [parse_replaygain_value, format_replaygain_peak, string_mk_data]
  have hmm : ∀ m : ℕ, m % 1000000 % 10 ^ 6 = m % 1000000 := by intro m; norm_num
  by_cases hv : v < 0
  · simp only [if_pos hv, List.cons_append, List.nil_append]
    rw [stripped_plain_chain '-' (by decide) _ _ 6 (by norm_num), parseF64_minus_core, hmm]
    have hM : ((1000000 : ℕ) : ℚ) = 1000000 := by norm_num
    rw [show ((10 : ℚ) ^ 6) = ((1000000 : ℕ) : ℚ) from by norm_num,
      div_add_mod_q _ 1000000 (by norm_num)]
    have hneg : roundAway (v * 1000000) ≤ 0 :=
      roundAway_nonpos_of_neg _ (not_le.mpr (mul_neg_of_neg_of_pos hv (by norm_num)))
    have hcast : (((roundAway (v * 1000000)).natAbs : ℕ) : ℚ)
        = -((roundAway (v * 1000000) : ℤ) : ℚ) :=
      natAbs_cast_q_of_nonpos _ hneg
    rw [hM, hcast]
    congr 1
    ring
  · simp only [if_neg hv, List.nil_append]
    rw [stripped_plain_chain_nosign _ _ 6 (by norm_num), parseF64_core, hmm]
    have hM : ((1000000 : ℕ) : ℚ) = 1000000 := by norm_num
    rw [show ((10 : ℚ) ^ 6) = ((1000000 : ℕ) : ℚ) from by norm_num,
      div_add_mod_q _ 1000000 (by norm_num)]
    have hpos : 0 ≤ roundAway (v * 1000000) :=
      roundAway_nonneg _ (by have : 0 ≤ v := not_lt.mp hv; positivity)
    have hcast : (((roundAway (v * 1000000)).natAbs : ℕ) : ℚ)
        = ((roundAway (v * 1000000) : ℤ) : ℚ) :=
      natAbs_cast_q_of_nonneg _ hpos
    rw [hM, hcast]

/-- C4: for every gain value `v`, decoding the encoding of `v` returns `v`
rounded (half away from zero) to two decimal places; for every peak value,
to six decimal places; including the spec's concrete examples
(`1.23 ↦ "+1.23 dB" ↦ 1.23` and `0.123456789 ↦ "0.123457"`). -/
theorem replaygain_encode_decode_roundtrip :
    ∀ v : ℚ,
      parse_replaygain_value (format_replaygain_gain v)
        = some ((roundAway (v * 100) : ℚ) / 100) ∧
      parse_replaygain_value (format_replaygain_peak v)
        = some ((roundAway (v * 1000000) : ℚ) / 1000000) ∧
      format_replaygain_gain (123 / 100) = "+1.23 dB" ∧
      parse_replaygain_value "+1.23 dB" = some (123 / 100) ∧
      format_replaygain_peak (123456789 / 1000000000) = "0.123457" := by
  intro v
  refine ⟨parse_format_gain v, parse_format_peak v, ?_, ?_, ?_⟩
  · have h2 : roundAway ((123 : ℚ) / 100 * 100) = 123 := by
      unfold roundAway
      rw [if_pos (by norm_num)]
      norm_num
    simp only [format_replaygain_gain, h2]
    rw [if_neg (by norm_num)]
    decide
  · have hc : trimChars (trimEndMatchesChars (trimEndMatchesChars
        (trimChars "+1.23 dB".data) ['d', 'B']) ['d', 'b'])
        = '+' :: (natDigits 1 ++ '.' :: natDigitsPad 2 23) := by decide
    unfold parse_replaygain_value
    rw [hc, parseF64_plus_core]
    norm_num
  · have h2 : roundAway ((123456789 : ℚ) / 1000000000 * 1000000) = 123457 := by
      unfold roundAway
      rw [if_pos (by norm_num)]
      norm_num
    simp only [format_replaygain_peak, h2]
    rw [if_neg (by norm_num)]
    decide

/-- C5: the decoder is total and lenient: it equals the spec's
trim/strip-suffix/trim/parse pipeline on every input string; a bare number
without unit suffix parses successfully, and non-numeric input decodes to
`none` rather than an error. -/
theorem replaygain_decode_total_lenient :
    (∀ s : String, parse_replaygain_value s = replaygainDecodeSpec s) ∧
    parse_replaygain_value "+1.23" = some (123 / 100) ∧
    parse_replaygain_value "abc dB" = none ∧
    parse_replaygain_value "" = none ∧
    parse_replaygain_value "dB" = none := by
  refine ⟨fun s => rfl, ?_, by decide, by decide, by decide⟩
  have hc : trimChars (trimEndMatchesChars (trimEndMatchesChars
      (trimChars "+1.23".data) ['d', 'B']) ['d', 'b'])
      = '+' :: (natDigits 1 ++ '.' :: natDigitsPad 2 23) := by decide
  unfold parse_replaygain_value
  rw [hc, parseF64_plus_core]
  norm_num

/-- C6: the artwork setter issues "set at index i" for every desired index
in increasing order (overwriting in place below the current length and
appending above it), followed — exactly when the desired list is shorter —
by removals of indices `old_len - 1` down to `new_len` in strictly
descending order; a cleared (`null`) desired list removes every index from
the highest down to `0`. -/
theorem set_pictures_reconciliation :
    ∀ (pics : List MetaPicture) (old_len : ℕ),
      set_pictures_ops (some pics) old_len
        = ((pics.enum.map fun ip => PicOp.set ip.1 ip.2)
            ++ ((List.range' pics.length (old_len - pics.length)).reverse.map PicOp.remove)) ∧
      ((List.range' pics.length (old_len - pics.length)).reverse).Pairwise (· > ·) ∧
      set_pictures_ops none old_len
        = (List.range' 0 old_len).reverse.map PicOp.remove := by
  intro pics O
  refine ⟨?_, ?_, ?_⟩
  · unfold set_pictures_ops
    by_cases h : pics.length < O
    · simp only [if_pos h]
    · have h0 : O - pics.length = 0 := by omega
      simp [h, h0]
  · rw [List.pairwise_reverse]
    simpa using List.pairwise_lt_range' pics.length (O - pics.length)
  · unfold set_pictures_ops
    by_cases hO : 0 < O
    · simp [hO]
    · have h0 : O = 0 := by omega
      subst h0
      simp

/-- C3: a lossy file type is classified `HQ` unconditionally; a lossless
file type is `HiRes` exactly when both sample rate and bit depth are known
with rate > 44100 and depth ≥ 16, and `SQ` in every other case, including
missing data. -/
theorem quality_classification :
    ∀ (st : MusicTagger) (inner : MetaFileInner), st.inner = some inner →
      (isLosslessFileType inner.file.fileType = false → st.quality = .ok "HQ") ∧
      (isLosslessFileType inner.file.fileType = true →
        ∀ sr bd, inner.file.properties.sampleRate = some sr →
          inner.file.properties.bitDepth = some bd →
          (st.quality = .ok "HiRes" ↔ 44100 < sr ∧ 16 ≤ bd) ∧
          (st.quality = .ok "SQ" ↔ ¬(44100 < sr ∧ 16 ≤ bd))) ∧
      (isLosslessFileType inner.file.fileType = true →
        inner.file.properties.sampleRate = none ∨ inner.file.properties.bitDepth = none →
        st.quality = .ok "SQ") := by
  intro st inner hst
  refine ⟨?_, ?_, ?_⟩
  · intro hlossy
    simp [MusicTagger.quality, hst, hlossy]
  · intro hlossless sr bd hsr hbd
    by_cases hcond : 44100 < sr ∧ 16 ≤ bd
    · have hq : st.quality = .ok "HiRes" := by
        simp [MusicTagger.quality, hst, hlossless, hsr, hbd, hcond]
      rw [hq]
      constructor
      · constructor
        · intro _; exact hcond
        · intro _; rfl
      · constructor
        · intro hcontra; simp at hcontra
        · intro hcontra; exact absurd hcond hcontra
    · have hq : st.quality = .ok "SQ" := by
        simp [MusicTagger.quality, hst, hlossless, hsr, hbd, hcond]
      rw [hq]
      constructor
      · constructor
        · intro hcontra; simp at hcontra
        · intro hcontra; exact absurd hcontra hcond
      · constructor
        · intro _; exact hcond
        · intro _; rfl
  · intro hlossless hmiss
    rcases hmiss with hsr | hbd
    · simp [MusicTagger.quality, hst, hlossless, hsr]
    · cases hsrv : inner.file.properties.sampleRate with
      | none => simp [MusicTagger.quality, hst, hlossless, hsrv]
      | some sr => simp [MusicTagger.quality, hst, hlossless, hsrv, hbd]

theorem quality_classification_witness :
    (mkTagger [] (mkFile .Mpeg (some 48000) (some 24) 1000000000 none)).quality = .ok "HQ" ∧
    (mkTagger [] (mkFile .Flac (some 48000) (some 24) 1000000000 none)).quality = .ok "HiRes" ∧
    (mkTagger [] (mkFile .Flac (some 44100) (some 16) 1000000000 none)).quality = .ok "SQ" ∧
    (mkTagger [] (mkFile .Flac (some 48000) none 1000000000 none)).quality = .ok "SQ" := by
  refine ⟨?_, ?_, ?_, ?_⟩
  · have h := quality_classification (mkTagger [] (mkFile .Mpeg (some 48000) (some 24) 1000000000 none))
      ⟨[], mkFile .Mpeg (some 48000) (some 24) 1000000000 none, none⟩ rfl
    exact h.1 rfl
  · have h := quality_classification (mkTagger [] (mkFile .Flac (some 48000) (some 24) 1000000000 none))
      ⟨[], mkFile .Flac (some 48000) (some 24) 1000000000 none, none⟩ rfl
    exact (h.2.1 rfl 48000 24 rfl rfl).1.mpr (by norm_num)
  · have h := quality_classification (mkTagger [] (mkFile .Flac (some 44100) (some 16) 1000000000 none))
      ⟨[], mkFile .Flac (some 44100) (some 16) 1000000000 none, none⟩ rfl
    exact (h.2.1 rfl 44100 16 rfl rfl).2.mpr (by norm_num)
  · have h := quality_classification (mkTagger [] (mkFile .Flac (some 48000) none 1000000000 none))
      ⟨[], mkFile .Flac (some 48000) none 1000000000 none, none⟩ rfl
    exact h.2.2 rfl (Or.inr rfl)

theorem roundAway_zero : roundAway 0 = 0 := by
  unfold roundAway
  rw [if_pos (by norm_num)]
  norm_num

/-- The in-band test applied after the saturating `as u32` conversion agrees
with the test on the unconverted rounded value. -/
theorem u32Saturate_band (r : ℤ) (hr : 0 ≤ r) :
    (if 8 ≤ u32Saturate r ∧ u32Saturate r ≤ 10000 then some (u32Saturate r) else none)
      = (if 8 ≤ r ∧ r ≤ 10000 then some r.toNat else none) := by
  unfold u32Saturate
  by_cases hbig : r ≤ 4294967295
  · have h1 : min (max r 0) 4294967295 = r := by omega
    rw [h1]
    by_cases hband : 8 ≤ r ∧ r ≤ 10000
    · rw [if_pos (by omega), if_pos hband]
    · rw [if_neg (by omega), if_neg hband]
  · have h1 : min (max r 0) 4294967295 = 4294967295 := by omega
    rw [h1]
    rw [if_neg (by omega), if_neg (by omega)]

/-- A duration of at least one nanosecond exceeds `f64::EPSILON` seconds. -/
theorem duration_gt_epsilon (d : ℕ) (hd : d ≠ 0) :
    ¬((d : ℚ) / 1000000000 ≤ f64Epsilon) := by
  rw [not_le]
  unfold f64Epsilon
  have hd1 : (1 : ℚ) ≤ (d : ℚ) := by exact_mod_cast Nat.one_le_iff_ne_zero.mpr hd
  have h2 : (1 : ℚ) / 2 ^ 52 < 1 / 1000000000 := by norm_num
  have h3 : (1 : ℚ) / 1000000000 ≤ (d : ℚ) / 1000000000 := by linarith
  linarith

/-- C2: `bit_rate` returns the container-reported bitrate unchanged when
present; otherwise absent when the duration is zero; otherwise the rounded
estimate `fileSize * 8 / (durationSecs * 1000)`, accepted exactly when it
lies inside the inclusive band `[8, 10000]` kbps. -/
theorem bit_rate_estimation :
    ∀ (st : MusicTagger) (inner : MetaFileInner), st.inner = some inner →
      (∀ b, inner.file.properties.audioBitrate = some b → st.bit_rate = .ok (some b)) ∧
      (inner.file.properties.audioBitrate = none →
        inner.file.properties.durationNs = 0 → st.bit_rate = .ok none) ∧
      (inner.file.properties.audioBitrate = none →
        inner.file.properties.durationNs ≠ 0 →
        st.bit_rate = .ok
          (if 8 ≤ roundAway ((inner.buffer.length : ℚ) * 8 /
                (((inner.file.properties.durationNs : ℚ) / 1000000000) * 1000)) ∧
              roundAway ((inner.buffer.length : ℚ) * 8 /
                (((inner.file.properties.durationNs : ℚ) / 1000000000) * 1000)) ≤ 10000
            then some (roundAway ((inner.buffer.length : ℚ) * 8 /
                (((inner.file.properties.durationNs : ℚ) / 1000000000) * 1000))).toNat
            else none)) := by
  intro st inner hst
  refine ⟨?_, ?_, ?_⟩
  · intro b hb
    simp [MusicTagger.bit_rate, hst, hb]
  · intro hb hd
    simp [MusicTagger.bit_rate, hst, hb, hd]
  · intro hb hd
    have heps := duration_gt_epsilon inner.file.properties.durationNs hd
    have hr : 0 ≤ roundAway ((inner.buffer.length : ℚ) * 8 /
        (((inner.file.properties.durationNs : ℚ) / 1000000000) * 1000)) := by
      apply roundAway_nonneg
      positivity
    simp only [MusicTagger.bit_rate, hst, hb, if_neg hd, if_neg heps]
    rw [u32Saturate_band _ hr]

theorem bit_rate_estimation_witness :
    (mkTagger (List.replicate 1000 0)
        (mkFile .Mpeg (some 44100) (some 16) 1000000000 (some 320))).bit_rate
      = .ok (some 320) ∧
    (mkTagger [] (mkFile .Mpeg (some 44100) (some 16) 0 none)).bit_rate = .ok none ∧
    (mkTagger (List.replicate 1000 0)
        (mkFile .Mpeg (some 44100) (some 16) 1000000000 none)).bit_rate = .ok (some 8) := by
  refine ⟨?_, ?_, ?_⟩
  · exact (bit_rate_estimation
      (mkTagger (List.replicate 1000 0) (mkFile .Mpeg (some 44100) (some 16) 1000000000 (some 320)))
      ⟨List.replicate 1000 0, mkFile .Mpeg (some 44100) (some 16) 1000000000 (some 320), none⟩
      rfl).1 320 rfl
  · exact (bit_rate_estimation
      (mkTagger [] (mkFile .Mpeg (some 44100) (some 16) 0 none))
      ⟨[], mkFile .Mpeg (some 44100) (some 16) 0 none, none⟩ rfl).2.1 rfl rfl
  · have h := (bit_rate_estimation
      (mkTagger (List.replicate 1000 0) (mkFile .Mpeg (some 44100) (some 16) 1000000000 none))
      ⟨List.replicate 1000 0, mkFile .Mpeg (some 44100) (some 16) 1000000000 none, none⟩
      rfl).2.2 rfl (by decide)
    rw [h]
    have hra : roundAway 8 = 8 := by
      unfold roundAway
      rw [if_pos (by norm_num)]
      norm_num
    norm_num [mkFile, List.length_replicate, hra]
    decide

/-- C9: a session loaded from a path holds an empty buffer, and for any
session with an empty buffer and no container-reported bit rate, the
estimate is 0 kbps (outside the accepted band), so `bit_rate` is absent. -/
theorem path_mode_bit_rate_absent :
    (∀ (st : MusicTagger) (path : String) (out : ProbeOutcome) (st' : MusicTagger)
        (inner' : MetaFileInner),
      st.load_path path false out = (.ok (), st') → st'.inner = some inner' →
      inner'.buffer = []) ∧
    (∀ (st : MusicTagger) (inner : MetaFileInner),
      st.inner = some inner → inner.buffer = [] →
      inner.file.properties.audioBitrate = none → st.bit_rate = .ok none) := by
  constructor
  · intro st path out st' inner' hload hinner
    cases out with
    | err e => simp [MusicTagger.load_path] at hload
    | ok file =>
      by_cases htag : file.primaryTag = none ∧ file.firstTag = none
      · simp [MusicTagger.load_path, htag] at hload
      · simp [MusicTagger.load_path, htag] at hload
        rw [← hload] at hinner
        simp only [Option.some.injEq] at hinner
        rw [← hinner]
  · intro st inner hst hbuf habr
    by_cases hd : inner.file.properties.durationNs = 0
    · simp [MusicTagger.bit_rate, hst, habr, hd]
    · have heps := duration_gt_epsilon inner.file.properties.durationNs hd
      simp only [MusicTagger.bit_rate, hst, habr, if_neg hd, if_neg heps]
      rw [hbuf]
      have hq : ((([] : List ℕ).length : ℕ) : ℚ) * 8 /
          ((inner.file.properties.durationNs : ℚ) / 1000000000 * 1000) = 0 := by
        simp
      rw [hq, roundAway_zero]
      norm_num [u32Saturate]

theorem path_mode_bit_rate_absent_witness :
    pathInnerFixture.buffer = [] ∧
    (MusicTagger.mk (some pathInnerFixture)).bit_rate = .ok none := by
  constructor
  · exact path_mode_bit_rate_absent.1 ⟨none⟩ "a.flac" (.ok pathFileFixture)
      ⟨some pathInnerFixture⟩ pathInnerFixture rfl rfl
  · exact path_mode_bit_rate_absent.2 ⟨some pathInnerFixture⟩ pathInnerFixture rfl rfl rfl

theorem dispose_inner_none (st : MusicTagger) : (st.dispose).inner = none := by
  cases st with
  | mk i => cases i <;> simp [MusicTagger.dispose]

/-- C10: when a load fails — probe error at either failure point, or a
parsed file with zero tags — the instance is left fully unloaded (the prior
session was disposed at the start of the load and nothing replaced it). -/
theorem load_failure_leaves_disposed :
    ∀ (st : MusicTagger) (buffer : List ℕ) (path : String) (out : ProbeOutcome) (e : String),
      ((st.load_buffer buffer out).1 = .error e →
        (st.load_buffer buffer out).2.is_disposed = true) ∧
      ((st.load_path path false out).1 = .error e →
        (st.load_path path false out).2.is_disposed = true) := by
  intro st buffer path out e
  constructor
  · intro hfail
    cases out with
    | err msg =>
      simp [MusicTagger.load_buffer, MusicTagger.is_disposed, dispose_inner_none]
    | ok file =>
      by_cases htag : file.primaryTag = none ∧ file.firstTag = none
      · simp [MusicTagger.load_buffer, htag, MusicTagger.is_disposed, dispose_inner_none]
      · simp [MusicTagger.load_buffer, htag] at hfail
  · intro hfail
    cases out with
    | err msg =>
      simp [MusicTagger.load_path, MusicTagger.is_disposed, dispose_inner_none]
    | ok file =>
      by_cases htag : file.primaryTag = none ∧ file.firstTag = none
      · simp [MusicTagger.load_path, htag, MusicTagger.is_disposed, dispose_inner_none]
      · simp [MusicTagger.load_path, htag] at hfail

theorem load_failure_leaves_disposed_witness :
    ((MusicTagger.mk (some pathInnerFixture)).load_buffer [0] (.err "bad")).2.is_disposed = true ∧
    ((MusicTagger.mk (some pathInnerFixture)).load_path "b" false (.err "bad")).2.is_disposed
      = true := by
  constructor
  · exact (load_failure_leaves_disposed ⟨some pathInnerFixture⟩ [0] "b" (.err "bad") "bad").1 rfl
  · exact (load_failure_leaves_disposed ⟨some pathInnerFixture⟩ [0] "b" (.err "bad") "bad").2 rfl

theorem intToStar_eq_none (r : ℕ) (h : ¬(1 ≤ r ∧ r ≤ 5)) : intToStar r = none := by
  rcases r with _ | _ | _ | _ | _ | _ | r
  · rfl
  · exact absurd (by omega) h
  · exact absurd (by omega) h
  · exact absurd (by omega) h
  · exact absurd (by omega) h
  · exact absurd (by omega) h
  · rfl

/-- C8: for an integer rating outside `{1,…,5}`, `set_rating` fails with
the invalid-rating error before touching the tag, leaving the session state
exactly as it was. -/
theorem set_rating_invalid_unchanged :
    ∀ (st : MusicTagger) (inner : MetaFileInner) (r : ℕ),
      st.inner = some inner → ¬(1 ≤ r ∧ r ≤ 5) →
      st.set_rating (some r) = (.error ERR_INVALID_RATING, st) := by
  intro st inner r _ hr
  simp [MusicTagger.set_rating, intToStar_eq_none r hr]

theorem set_rating_invalid_unchanged_witness :
    (MusicTagger.mk (some pathInnerFixture)).set_rating (some 0)
        = (.error ERR_INVALID_RATING, MusicTagger.mk (some pathInnerFixture)) ∧
    (MusicTagger.mk (some pathInnerFixture)).set_rating (some 6)
        = (.error ERR_INVALID_RATING, MusicTagger.mk (some pathInnerFixture)) := by
  constructor
  · exact set_rating_invalid_unchanged ⟨some pathInnerFixture⟩ pathInnerFixture 0 rfl (by omega)
  · exact set_rating_invalid_unchanged ⟨some pathInnerFixture⟩ pathInnerFixture 6 rfl (by omega)

/-- Inserting keyed text makes the key read back the inserted value. -/
theorem getString_insertText (t : Tag) (k : ItemKey) (v : String) :
    (t.insertText k v).getString k = some v := by
  unfold Tag.insertText Tag.getString
  rw [List.find?_append]
  have h1 : (t.items.filter (fun kv => decide (kv.1 ≠ k))).find? (fun kv => decide (kv.1 = k))
      = none := by
    rw [List.find?_eq_none]
    intro x hx
    have hmem := List.mem_filter.mp hx
    simp only [decide_eq_true_eq] at hmem ⊢
    exact hmem.2
  rw [h1]
  simp [List.find?]

/-- `try_tag_mut` on a session with at least one tag succeeds, and the tag
subsequently selected for reads is exactly the mutated one. -/
theorem tryTagMut_sets_selected (st : MusicTagger) (inner : MetaFileInner)
    (hst : st.inner = some inner) (hne : inner.file.tags ≠ []) (f : Tag → Tag) :
    ∃ (t : Tag) (inner' : MetaFileInner),
      st.tryTagMut f = (.ok (), ⟨some inner'⟩) ∧ selectedTag inner' = some (f t) := by
  obtain ⟨a, as, hcons⟩ := List.exists_cons_of_ne_nil hne
  have hie : inner.file.tags.isEmpty = false := by rw [hcons]; rfl
  cases hpi : inner.file.primaryIdx with
  | some j =>
    by_cases hj : j < inner.file.tags.length
    · refine ⟨inner.file.tags.getD j ⟨[]⟩,
        { inner with file := { inner.file with
          tags := inner.file.tags.set j (f (inner.file.tags.getD j ⟨[]⟩)) } }, ?_, ?_⟩
      · simp only [MusicTagger.tryTagMut, hst, tryTagMutIdx, hpi, if_pos hj]
      · have hg : (inner.file.tags.set j (f (inner.file.tags[j]?.getD ⟨[]⟩)))[j]?
            = some (f (inner.file.tags[j]?.getD ⟨[]⟩)) :=
          List.getElem?_set_eq (by simpa using hj)
        simp [selectedTag, TaggedFile.primaryTag, hpi, hg]
    · refine ⟨inner.file.tags.getD 0 ⟨[]⟩,
        { inner with file := { inner.file with
          tags := inner.file.tags.set 0 (f (inner.file.tags.getD 0 ⟨[]⟩)) } }, ?_, ?_⟩
      · simp only [MusicTagger.tryTagMut, hst, tryTagMutIdx, hpi, if_neg hj, hie,
          Bool.false_eq_true, if_false]
      · have hnone : (inner.file.tags.set 0 (f (inner.file.tags[0]?.getD ⟨[]⟩)))[j]? = none :=
          List.getElem?_eq_none (by rw [List.length_set]; omega)
        simp [selectedTag, TaggedFile.primaryTag, TaggedFile.firstTag, hpi, hnone]
        rw [hcons]
        rfl
  | none =>
    refine ⟨inner.file.tags.getD 0 ⟨[]⟩,
      { inner with file := { inner.file with
        tags := inner.file.tags.set 0 (f (inner.file.tags.getD 0 ⟨[]⟩)) } }, ?_, ?_⟩
    · simp only [MusicTagger.tryTagMut, hst, tryTagMutIdx, hpi, hie,
        Bool.false_eq_true, if_false]
    · simp [selectedTag, TaggedFile.primaryTag, TaggedFile.firstTag, hpi]
      rw [hcons]
      rfl

/-- C7: on a loaded session, setting a rating in `{1,…,5}` succeeds and
reading it back returns the same value (through the star-rating mapping and
the popularity-record serialization); a stored popularity value outside the
five levels (or unparseable text) reads back as absent, not an error. -/
theorem rating_roundtrip :
    ∀ (st : MusicTagger) (inner : MetaFileInner) (r : ℕ),
      st.inner = some inner → inner.file.tags ≠ [] → 1 ≤ r → r ≤ 5 →
      ((st.set_rating (some r)).1 = .ok () ∧
        (st.set_rating (some r)).2.rating = .ok (some r)) ∧
      (∀ (t : Tag) (s : String), selectedTag inner = some t →
        t.getString .Popularimeter = some s →
        ((parsePopularimeter s).map Popularimeter.rating = some .zero ∨
          parsePopularimeter s = none) →
        st.rating = .ok none) := by
  intro st inner r hst hne h1 h5
  constructor
  · have key : ∀ (sr : StarRating) (rv : ℕ),
        intToStar rv = some sr →
        parsePopularimeter (popToString ⟨[], sr, 0⟩) = some ⟨[], sr, 0⟩ →
        starToInt? (some sr) = some rv →
        (st.set_rating (some rv)).1 = .ok () ∧
          (st.set_rating (some rv)).2.rating = .ok (some rv) := by
      intro sr rv hits hq hsi
      obtain ⟨t, inner', heq, hsel⟩ := tryTagMut_sets_selected st inner hst hne
        (fun tag => tag.insertText .Popularimeter (popToString ⟨[], sr, 0⟩))
      have hsr : st.set_rating (some rv) = st.tryTagMut
          (fun tag => tag.insertText .Popularimeter (popToString ⟨[], sr, 0⟩)) := by
        simp [MusicTagger.set_rating, hits]
      rw [hsr, heq]
      refine ⟨rfl, ?_⟩
      simp [MusicTagger.rating, MusicTagger.tryTag, hsel, Tag.ratingsFirst,
        getString_insertText, hq, hsi]
    interval_cases r
    · exact key .one 1 rfl (by decide) rfl
    · exact key .two 2 rfl (by decide) rfl
    · exact key .three 3 rfl (by decide) rfl
    · exact key .four 4 rfl (by decide) rfl
    · exact key .five 5 rfl (by decide) rfl
  · intro t s hsel hgot hout
    rcases hout with h | h
    · obtain ⟨p, hp, hpr⟩ := Option.map_eq_some'.mp h
      simp [MusicTagger.rating, MusicTagger.tryTag, hst, hsel, Tag.ratingsFirst, hgot, hp, hpr]
      rfl
    · simp [MusicTagger.rating, MusicTagger.tryTag, hst, hsel, Tag.ratingsFirst, hgot, h]
      rfl

theorem rating_roundtrip_witness :
    ((MusicTagger.mk (some pathInnerFixture)).set_rating (some 3)).1 = .ok () ∧
    ((MusicTagger.mk (some pathInnerFixture)).set_rating (some 3)).2.rating = .ok (some 3) ∧
    (MusicTagger.mk (some ⟨[], zeroPopFile, none⟩)).rating = .ok none := by
  refine ⟨?_, ?_, ?_⟩
  · exact (rating_roundtrip ⟨some pathInnerFixture⟩ pathInnerFixture 3 rfl (by decide)
      (by omega) (by omega)).1.1
  · exact (rating_roundtrip ⟨some pathInnerFixture⟩ pathInnerFixture 3 rfl (by decide)
      (by omega) (by omega)).1.2
  · exact (rating_roundtrip ⟨some ⟨[], zeroPopFile, none⟩⟩ ⟨[], zeroPopFile, none⟩ 3 rfl
      (by decide) (by omega) (by omega)).2 zeroPopTag ",0,0" rfl rfl (Or.inl (by decide))

/-- In path-mode (empty held buffer) `save` leaves the session state
entirely unchanged, on success and on every failure. -/
theorem saveInner_empty_buffer (inner : MetaFileInner) (path : Option String) (env : SaveEnv)
    (hbuf : inner.buffer = []) :
    (saveInner inner path env).2 = ⟨some inner⟩ := by
  unfold saveInner
  rw [if_neg (by simp [hbuf])]
  repeat' split
  all_goals rfl

/-- In buffer-mode `save` can change only the held buffer: the parsed
structure and the stored path survive every outcome. -/
theorem saveInner_buffer_shape (inner : MetaFileInner) (path : Option String) (env : SaveEnv)
    (hbuf : inner.buffer ≠ []) :
    ∃ buf', (saveInner inner path env).2 = ⟨some { inner with buffer := buf' }⟩ := by
  unfold saveInner
  rw [if_pos hbuf]
  repeat' split
  all_goals exact ⟨_, rfl⟩

/-- C1 counterexample: a buffer-mode `save(targetPath)` call in which
serialization succeeds and the subsequent filesystem write fails returns an
error, yet the session's stored buffer has already been overwritten
(`[0]` became `[1]`), refuting "the stored state is unchanged from before
any failing save". -/
theorem save_error_mutated_state_cex :
    (cexSaveSt.save (some "out.mp3") cexSaveEnv).1
        = .error "Failed writing to custom path 'out.mp3': disk full" ∧
    (cexSaveSt.save (some "out.mp3") cexSaveEnv).2 ≠ cexSaveSt ∧
    (cexSaveSt.save (some "out.mp3") cexSaveEnv).2
        = ⟨some ⟨[1], mkFile .Mpeg (some 44100) (some 16) 1000000000 none, none⟩⟩ := by
  refine ⟨rfl, ?_, rfl⟩
  decide

/-- C1 amended: a save on a disposed session fails without change; `save`
never mutates the stored path or the parsed structure — only the held
buffer can change — and in path-mode (empty buffer) the session state is
left entirely unchanged whether the call succeeds or fails.  In
buffer-mode, serialization overwrites the held buffer in place before any
disk write, so a failing later write (see the counterexample) returns an
error with the buffer already rewritten. -/
theorem save_mutates_only_buffer :
    ∀ (st : MusicTagger) (path : Option String) (env : SaveEnv),
      (st.inner = none → st.save path env = (.error ERR_DISPOSED, st)) ∧
      (∀ inner, st.inner = some inner →
        ∃ buf', (st.save path env).2 = ⟨some { inner with buffer := buf' }⟩) ∧
      (∀ inner, st.inner = some inner → inner.buffer = [] →
        (st.save path env).2 = st) := by
  intro st path env
  refine ⟨?_, ?_, ?_⟩
  · intro h
    simp [MusicTagger.save, h]
  · intro inner hst
    cases st with
    | mk i =>
      simp only at hst
      subst hst
      show ∃ buf', (saveInner inner path env).2 = ⟨some { inner with buffer := buf' }⟩
      by_cases hbuf : inner.buffer = []
      · refine ⟨inner.buffer, ?_⟩
        have heta : { inner with buffer := inner.buffer } = inner := rfl
        rw [heta]
        exact saveInner_empty_buffer inner path env hbuf
      · exact saveInner_buffer_shape inner path env hbuf
  · intro inner hst hbuf
    cases st with
    | mk i =>
      simp only at hst
      subst hst
      exact saveInner_empty_buffer inner path env hbuf

theorem save_mutates_only_buffer_witness :
    ((⟨none⟩ : MusicTagger).save none cexSaveEnv = (.error ERR_DISPOSED, ⟨none⟩)) ∧
    ((MusicTagger.mk (some pathInnerFixture)).save (some "b.flac")
        ⟨.ok [1], .ok (), .error "copy failed", .ok (), false⟩).2
      = MusicTagger.mk (some pathInnerFixture) := by
  constructor
  · exact (save_mutates_only_buffer ⟨none⟩ none cexSaveEnv).1 rfl
  · exact (save_mutates_only_buffer (MusicTagger.mk (some pathInnerFixture)) (some "b.flac")
      ⟨.ok [1], .ok (), .error "copy failed", .ok (), false⟩).2.2 pathInnerFixture rfl rfl

end MusicTag
